import Mathlib

/-!
# SafeMind crypto / verification / storage core: shallow embedding

This file embeds the cryptographic, attestation, response-verification and
encrypted-vault logic of the SafeMind client (TypeScript sources
`src/lib/crypto.ts`, `src/lib/near-ai.ts`, `src/lib/storage.ts`,
`src/app/page.tsx`) into Lean and proves the specified properties.

Conventions of the embedding:
* JS `Uint8Array` values are `List Nat` with every entry `< 256` where it
  matters (byte bounds appear as explicit hypotheses or lemmas).
* JS strings are Lean `String`; all string computation is performed on the
  underlying `List Char` so that everything reduces in the kernel.
* External cryptographic primitives (WebCrypto AES-GCM, noble secp256k1,
  HKDF, PBKDF2, `TextDecoder`, `JSON`) are parameters gathered in the
  `CryptoPrim` structure; the repository's own composition logic is
  translated concretely.  Properties of the primitives that the claims
  depend on (AEAD round-trip, ECDH symmetry, ...) are explicit hypotheses.
* `fetch` results are modelled by an `ok : Bool` flag plus a parsed JSON
  body (`JsonValue`); a thrown JS exception is `Option.none`.
* Randomness (nonces, salts, ivs, ephemeral secret keys) is passed in as
  arguments to the embedded functions.
-/

set_option maxRecDepth 4000

/-! ## Hex encoding (crypto.ts: `hexToBytes`, `bytesToHex`, `isHex`) -/

/-- Value of one hex digit, as accepted by JS `parseInt(-, 16)`. -/
def hexDigitVal (c : Char) : Option Nat :=
  if 48 ≤ c.toNat ∧ c.toNat ≤ 57 then some (c.toNat - 48)        -- '0'..'9'
  else if 97 ≤ c.toNat ∧ c.toNat ≤ 102 then some (c.toNat - 87)  -- 'a'..'f'
  else if 65 ≤ c.toNat ∧ c.toNat ≤ 70 then some (c.toNat - 55)   -- 'A'..'F'
  else none

/-- JS `parseInt(two-char slice, 16)` followed by the `Uint8Array` store:
`parseInt` parses the maximal valid prefix, `NaN` is stored as `0`. -/
def hexPairVal (c1 c2 : Char) : Nat :=
  match hexDigitVal c1, hexDigitVal c2 with
  | some v1, some v2 => 16 * v1 + v2
  | some v1, none => v1
  | none, _ => 0

/-- The byte-filling loop of `hexToBytes`: consume the characters two at a
time; a trailing lone character is dropped (the `Uint8Array` was sized
`clean.length / 2`, rounded down, so the final out-of-range store is lost). -/
def hexPairBytes : List Char → List Nat
  | c1 :: c2 :: rest => hexPairVal c1 c2 :: hexPairBytes rest
  | _ => []

/-- Remove one leading `"0x"` if present (JS `startsWith("0x")` /
`replace(/^0x/, "")`). -/
def strip0x (l : List Char) : List Char :=
  match l with
  | c1 :: c2 :: rest => if c1 = '0' ∧ c2 = 'x' then rest else l
  | _ => l

/-- Whether the characters start with `"0x"`. -/
def starts0x (l : List Char) : Bool :=
  match l with
  | c1 :: c2 :: _ => c1 = '0' && c2 = 'x'
  | _ => false

/-- crypto.ts `hexToBytes`. -/
def hexToBytes (hex : String) : List Nat :=
  hexPairBytes (strip0x hex.data)

/-- One byte as `b.toString(16).padStart(2, "0")`. -/
def byteHexChars (b : Nat) : List Char :=
  let s := Nat.toDigits 16 b
  if s.length = 1 then '0' :: s else s

/-- crypto.ts `bytesToHex`: each byte as two lowercase hex characters. -/
def bytesToHex (bytes : List Nat) : String :=
  ⟨(bytes.map byteHexChars).flatten⟩

/-- crypto.ts `isHex`: the regex `^[0-9a-fA-F]+$`. -/
def isHex (value : String) : Bool :=
  !value.data.isEmpty && value.data.all (fun c => (hexDigitVal c).isSome)

/-! ## UTF-8 encoding (JS `TextEncoder().encode`) -/

/-- Standard UTF-8 encoding of one Unicode scalar value. -/
def utf8EncodeCharBytes (c : Char) : List Nat :=
  if c.toNat < 128 then [c.toNat]
  else if c.toNat < 2048 then [192 + c.toNat / 64, 128 + c.toNat % 64]
  else if c.toNat < 65536 then
    [224 + c.toNat / 4096, 128 + (c.toNat / 64) % 64, 128 + c.toNat % 64]
  else
    [240 + c.toNat / 262144, 128 + (c.toNat / 4096) % 64,
      128 + (c.toNat / 64) % 64, 128 + c.toNat % 64]

/-- JS `new TextEncoder().encode(s)`: the UTF-8 bytes of the string. -/
def utf8Encode (s : String) : List Nat :=
  (s.data.map utf8EncodeCharBytes).flatten

/-! ## Base64 (storage.ts: `bytesToBase64` via `btoa`, `base64ToBytes` via
`atob`) -/

def b64Alphabet : List Char :=
  "ABCDEFGHIJKLMNOPQRSTUVWXYZabcdefghijklmnopqrstuvwxyz0123456789+/".data

/-- Character for a 6-bit group. -/
def b64Char (n : Nat) : Char := b64Alphabet.getD n '?'

/-- Value of a base64 character as a 6-bit group (64 when not in the alphabet). -/
def b64Val (c : Char) : Nat := b64Alphabet.indexOf c

/-- JS `btoa` over the byte string: encode three bytes at a time, padding the
final one- or two-byte group with `'='`. -/
def bytesToBase64Chars : List Nat → List Char
  | b1 :: b2 :: b3 :: rest =>
    b64Char (b1 / 4) :: b64Char ((b1 % 4) * 16 + b2 / 16) ::
      b64Char ((b2 % 16) * 4 + b3 / 64) :: b64Char (b3 % 64) ::
      bytesToBase64Chars rest
  | [b1, b2] =>
    [b64Char (b1 / 4), b64Char ((b1 % 4) * 16 + b2 / 16),
      b64Char ((b2 % 16) * 4), '=']
  | [b1] => [b64Char (b1 / 4), b64Char ((b1 % 4) * 16), '=', '=']
  | [] => []

/-- storage.ts `bytesToBase64`. -/
def bytesToBase64 (bytes : List Nat) : String :=
  ⟨bytesToBase64Chars bytes⟩

/-- JS `atob` then `charCodeAt` over each character: decode four characters at
a time, honouring `'='` padding. -/
def base64DecodeChars : List Char → List Nat
  | c1 :: c2 :: c3 :: c4 :: rest =>
    if c3 = '=' then [b64Val c1 * 4 + b64Val c2 / 16]
    else if c4 = '=' then
      [b64Val c1 * 4 + b64Val c2 / 16, (b64Val c2 % 16) * 16 + b64Val c3 / 4]
    else
      (b64Val c1 * 4 + b64Val c2 / 16) ::
        ((b64Val c2 % 16) * 16 + b64Val c3 / 4) ::
        ((b64Val c3 % 4) * 64 + b64Val c4) :: base64DecodeChars rest
  | _ => []

/-- storage.ts `base64ToBytes`. -/
def base64ToBytes (base64 : String) : List Nat :=
  base64DecodeChars base64.data

/-! ## Data model (types.ts) -/

/-- Message role (`"user" | "assistant"`). -/
inductive MsgRole where
  | user
  | assistant
deriving DecidableEq

/-- types.ts `Message`. -/
structure Message where
  id : String
  role : MsgRole
  content : String
  timestamp : Nat
  encrypted : Bool
  chatId : Option String
deriving DecidableEq

/-- types.ts `HealthPlanTemplateId`. -/
inductive HealthPlanTemplateId where
  | weightGain8w
  | strength8w
  | fatLoss8w
  | anxietyReset14d
  | sleepReset14d
  | mobilityReset21d
deriving DecidableEq

/-- types.ts `HealthPlanTask`. -/
structure HealthPlanTask where
  id : String
  label : String
  completed : Bool
deriving DecidableEq

/-- types.ts `HealthPlanDay`. -/
structure HealthPlanDay where
  day : Nat
  title : String
  tasks : List HealthPlanTask
deriving DecidableEq

/-- types.ts `HealthPlan`. -/
structure HealthPlan where
  id : String
  templateId : HealthPlanTemplateId
  title : String
  createdAt : Nat
  goal : String
  notes : String
  durationDays : Nat
  days : List HealthPlanDay
deriving DecidableEq

/-- types.ts `Conversation`.  The optional-or-null TS fields
(`retentionHours?: number | null`, `expiresAt?: number | null`,
`plans?: HealthPlan[]`) collapse `undefined` and `null` into `Option.none`;
timestamps are `Nat` milliseconds. -/
structure Conversation where
  id : String
  title : String
  messages : List Message
  createdAt : Nat
  retentionHours : Option Nat
  expiresAt : Option Nat
  plans : Option (List HealthPlan)
deriving DecidableEq

/-- types.ts `E2EEKeys`: hex-encoded public key plus raw private key bytes. -/
structure E2EEKeys where
  publicKeyHex : String
  privateKey : List Nat
deriving DecidableEq

/-! ## External primitives

The repository calls WebCrypto, noble-curves and `JSON` for the raw
cryptography; those are external libraries, so they enter the embedding as
an abstract bundle of functions.  Every property of them that a claim
relies on (AEAD round-trip and byte-ness, ECDH symmetry of the specific
keypairs, UTF-8/JSON round-trips) is stated as an explicit hypothesis of
the corresponding theorem. -/

structure CryptoPrim where
  /-- noble `secp256k1.getSharedSecret(priv, pub, false)`:
  full uncompressed shared point. -/
  getSharedSecret : List Nat → List Nat → List Nat
  /-- noble `secp256k1.getPublicKey(priv, false)`: uncompressed public key. -/
  getPublicKey : List Nat → List Nat
  /-- noble `hkdf(sha256, ikm, undefined, "ecdsa_encryption", 32)`. -/
  hkdfSha256 : List Nat → List Nat
  /-- WebCrypto AES-GCM encryption of `pt` under `key` and `iv`:
  ciphertext with appended tag. -/
  aesGcmEncrypt : List Nat → List Nat → List Nat → List Nat
  /-- WebCrypto AES-GCM decryption; `none` models the thrown
  `OperationError` on tag mismatch. -/
  aesGcmDecrypt : List Nat → List Nat → List Nat → Option (List Nat)
  /-- JS `new TextDecoder().decode`. -/
  utf8Decode : List Nat → String
  /-- `deriveAesKey` = PBKDF2(SHA-256, 210000 iterations) from storage.ts,
  abstracted to the raw key bytes it derives. -/
  pbkdf2Key : String → List Nat → List Nat
  /-- JS `JSON.stringify` on a `Conversation`. -/
  stringifyConv : Conversation → String
  /-- JS `JSON.parse` cast back to `Conversation`. -/
  parseConv : String → Conversation

/-! ## Message cipher (crypto.ts) -/

/-- crypto.ts `normalizePubKey`: accept 64-byte raw coordinates or 65-byte
uncompressed keys, always returning the `0x04`-prefixed form. -/
def normalizePubKey (pubKeyHex : String) : List Nat :=
  let bytes := hexPairBytes (strip0x (strip0x pubKeyHex.data))
  if bytes.length = 64 then 4 :: bytes else bytes

/-- crypto.ts `generateClientKeys`, with the random secret key supplied. -/
def generateClientKeys (prim : CryptoPrim) (randomSecret : List Nat) : E2EEKeys :=
  { publicKeyHex := bytesToHex (prim.getPublicKey randomSecret)
    privateKey := randomSecret }

/-- crypto.ts `encryptMessageWithClientKeys`; the fresh random 12-byte GCM
nonce is an argument. -/
def encryptMessageWithClientKeys (prim : CryptoPrim) (plaintext : String)
    (modelPubKeyHex : String) (clientKeys : E2EEKeys)
    (nonce : List Nat) : String :=
  let modelPubKeyBytes := normalizePubKey modelPubKeyHex
  let sharedSecretFull := prim.getSharedSecret clientKeys.privateKey modelPubKeyBytes
  let sharedSecret := (sharedSecretFull.drop 1).take 32
  let derivedKey := prim.hkdfSha256 sharedSecret
  let plaintextBytes := utf8Encode plaintext
  let ciphertextWithTag := prim.aesGcmEncrypt derivedKey nonce plaintextBytes
  let ephemeralPub := normalizePubKey clientKeys.publicKeyHex
  bytesToHex (ephemeralPub ++ nonce ++ ciphertextWithTag)

/-- crypto.ts `decryptResponse`: split the blob at the fixed 65/12/rest
offsets, re-derive the key, decrypt; `none` models the thrown error. -/
def decryptResponse (prim : CryptoPrim) (encryptedHex : String)
    (clientPrivateKey : List Nat) : Option String :=
  let data := hexToBytes encryptedHex
  let ephemeralPub := data.take 65
  let nonce := (data.drop 65).take 12
  let ciphertextWithTag := data.drop 77
  let sharedSecretFull := prim.getSharedSecret clientPrivateKey ephemeralPub
  let sharedSecret := (sharedSecretFull.drop 1).take 32
  let derivedKey := prim.hkdfSha256 sharedSecret
  (prim.aesGcmDecrypt derivedKey nonce ciphertextWithTag).map prim.utf8Decode

/-! ## JSON values

Parsed `res.json()` bodies are modelled as a tree-shaped JSON value (the
source's recursive nonce scan carries a `WeakSet` purely as cycle
protection for self-referential objects; on tree-shaped JSON — which is all
`JSON.parse` can produce — it never fires, so the embedding omits it).
Arrays and objects are spelled as mutual inductives so that every function
below is structurally recursive and reduces in the kernel. -/

mutual
inductive JsonValue where
  | str (s : String)
  | num (n : Int)
  | bool (b : Bool)
  | null
  | arr (items : JsonArr)
  | obj (fields : JsonObj)

inductive JsonArr where
  | nil
  | cons (hd : JsonValue) (tl : JsonArr)

inductive JsonObj where
  | nil
  | cons (key : String) (val : JsonValue) (tl : JsonObj)
end

/-- Property lookup (`x?.k`): `none` is JS `undefined`. -/
def jObjGet : JsonObj → String → Option JsonValue
  | .nil, _ => none
  | .cons k v rest, key => if k == key then some v else jObjGet rest key

/-- Optional chaining `node?.key` on an arbitrary value. -/
def jGet : JsonValue → String → Option JsonValue
  | .obj fields, key => jObjGet fields key
  | _, _ => none

def jArrGet : JsonArr → Nat → Option JsonValue
  | .nil, _ => none
  | .cons j _, 0 => some j
  | .cons _ rest, n + 1 => jArrGet rest n

/-- Optional chaining `node?.[i]` on an arbitrary value. -/
def jIndex : JsonValue → Nat → Option JsonValue
  | .arr items, i => jArrGet items i
  | _, _ => none

/-- JS truthiness of a parsed JSON value. -/
def jsTruthy : JsonValue → Bool
  | .str s => !s.data.isEmpty
  | .num n => n != 0
  | .bool b => b
  | .null => false
  | .arr _ => true
  | .obj _ => true

/-- JS `toLowerCase` (ASCII case mapping, which covers the hex nonces this
code compares). -/
def strToLower (s : String) : String := ⟨s.data.map Char.toLower⟩

mutual
/-- JS `String(v)` for a parsed JSON value. -/
def jsToString : JsonValue → String
  | .str s => s
  | .num n => toString n
  | .bool b => if b then "true" else "false"
  | .null => "null"
  | .obj _ => "[object Object]"
  | .arr items => jsArrElems items

/-- Array-to-string: elements joined with `","`, `null` elements empty. -/
def jsArrElems : JsonArr → String
  | .nil => ""
  | .cons .null .nil => ""
  | .cons j .nil => jsToString j
  | .cons .null rest => "," ++ jsArrElems rest
  | .cons j rest => jsToString j ++ "," ++ jsArrElems rest
end

mutual
/-- crypto.ts `findNonceRecursive`: case-insensitive scan of every string
in the body for the request nonce. -/
def findNonceRecursive : JsonValue → String → Bool
  | .str s, nonce => strToLower s == strToLower nonce
  | .num _, _ => false
  | .bool _, _ => false
  | .null, _ => false
  | .arr items, nonce => findNonceArr items nonce
  | .obj fields, nonce => findNonceObj fields nonce

def findNonceArr : JsonArr → String → Bool
  | .nil, _ => false
  | .cons j rest, nonce => findNonceRecursive j nonce || findNonceArr rest nonce

def findNonceObj : JsonObj → String → Bool
  | .nil, _ => false
  | .cons _ j rest, nonce => findNonceRecursive j nonce || findNonceObj rest nonce
end

/-! ## Attestation verifier (crypto.ts `fetchModelPublicKey`) -/

/-- Values of `AttestationReport["verificationLevel"]`. -/
inductive VerificationLevel where
  | none
  | format
  | nonce
deriving DecidableEq

/-- types.ts `AttestationReport`. -/
structure AttestationReport where
  signingPublicKey : String
  keyFingerprint : String
  signingAlgo : String
  environment : String
  model : String
  verified : Bool
  verificationLevel : VerificationLevel
  nonceMatched : Bool
  nonce : String
  checkedAt : Nat
  note : String
deriving DecidableEq

/-- crypto.ts `fetchModelPublicKey`, from the point where the transport has
answered: `resOk` is `res.ok`, `data` the parsed body, `nonce` the random
hex nonce generated for the request, `checkedAt` is `Date.now()`.  `none`
models a thrown error (non-2xx response, or missing/falsy
`model_attestations[0].signing_public_key`). -/
def fetchModelPublicKey (resOk : Bool) (data : JsonValue) (nonce : String)
    (checkedAt : Nat) : Option AttestationReport :=
  if !resOk then none
  else
    match (jGet data "model_attestations").bind (fun a => jIndex a 0) with
    | Option.none => none
    | some modelAttestation =>
      match jGet modelAttestation "signing_public_key" with
      | Option.none => none
      | some keyVal =>
        if !jsTruthy keyVal then none
        else
          let signingPublicKey := jsToString keyVal
          let cleanKey : String := ⟨strip0x signingPublicKey.data⟩
          let keyLength :=
            if starts0x signingPublicKey.data then signingPublicKey.length - 2
            else signingPublicKey.length
          let keyLooksValid :=
            isHex cleanKey && (keyLength == 128 || keyLength == 130)
          let nonceMatched := findNonceRecursive data nonce
          let keyFingerprint :=
            if 16 ≤ cleanKey.length then
              ⟨cleanKey.data.take 8 ++ '…' :: cleanKey.data.drop (cleanKey.data.length - 8)⟩
            else cleanKey
          let verificationLevel : VerificationLevel :=
            if keyLooksValid then (if nonceMatched then .nonce else .format)
            else .none
          let note :=
            if verificationLevel = VerificationLevel.nonce then
              "Model key format and nonce freshness checks passed."
            else if verificationLevel = VerificationLevel.format then
              "Model key format check passed, but nonce echo was not found."
            else
              "Attestation payload did not include a valid model key format."
          some
            { signingPublicKey := signingPublicKey
              keyFingerprint := keyFingerprint
              signingAlgo := "ecdsa"
              environment := "NEAR AI TEE Enclave"
              model := "deepseek-ai/DeepSeek-V3.1"
              verified := decide (verificationLevel = VerificationLevel.nonce)
              verificationLevel := verificationLevel
              nonceMatched := nonceMatched
              nonce := nonce
              checkedAt := checkedAt
              note := note }

/-- The claim's "format-valid" condition on the reported signing key: hex
of 128 or 130 characters, ignoring an optional `0x` prefix. -/
def keyFormatValid (signingPublicKey : String) : Bool :=
  let cleanKey : String := ⟨strip0x signingPublicKey.data⟩
  isHex cleanKey && (cleanKey.length == 128 || cleanKey.length == 130)

/-! ## Signature verification (crypto.ts `fetchChatSignature`,
near-ai.ts `buildVerification`) -/

/-- types.ts `ChatSignature`; field values are kept as raw JSON values (the
source stores `data.text` etc. without conversion), with `none` for an
absent (`undefined`) field. -/
structure ChatSignature where
  text : JsonValue
  signature : JsonValue
  signingAddress : Option JsonValue
  signingAlgo : Option JsonValue

/-- crypto.ts `fetchChatSignature` from the point where the transport has
answered: `null` on a non-2xx response or a missing/falsy `signature` or
`text` field. -/
def fetchChatSignature (resOk : Bool) (body : JsonValue) : Option ChatSignature :=
  if !resOk then none
  else
    match jGet body "signature", jGet body "text" with
    | some sigV, some textV =>
      if jsTruthy sigV && jsTruthy textV then
        some
          { text := textV
            signature := sigV
            signingAddress := jGet body "signing_address"
            signingAlgo := jGet body "signing_algo" }
      else none
    | _, _ => none

/-- types.ts `ChatVerificationResult`. -/
structure ChatVerificationResult where
  chatId : String
  requestHash : String
  responseHash : String
  signatureFetched : Bool
  signatureTextMatches : Bool
  signature : Option ChatSignature

/-- near-ai.ts `buildVerification`: `signature?.text === expected` is JS
strict equality against the string `requestHash + ":" + responseHash`. -/
def buildVerification (chatId requestHash responseHash : String)
    (resOk : Bool) (body : JsonValue) : ChatVerificationResult :=
  let signature := fetchChatSignature resOk body
  let expected := requestHash ++ ":" ++ responseHash
  let textMatches :=
    match signature with
    | some s =>
      match s.text with
      | JsonValue.str t => t == expected
      | _ => false
    | Option.none => false
  { chatId := chatId
    requestHash := requestHash
    responseHash := responseHash
    signatureFetched := signature.isSome
    signatureTextMatches := textMatches
    signature := signature }

/-! ## Encrypted vault (storage.ts) -/

/-- storage.ts `EncryptedConversationRecord` (`v: 1` is the version tag). -/
structure EncryptedConversationRecord where
  id : String
  createdAt : Nat
  payload : String
  iv : String
  salt : String
  v : Nat
deriving DecidableEq

/-- storage.ts `encryptConversation`; the fresh random 16-byte salt and
12-byte iv are arguments. -/
def encryptConversation (prim : CryptoPrim) (conversation : Conversation)
    (passphrase : String) (salt iv : List Nat) : EncryptedConversationRecord :=
  let key := prim.pbkdf2Key passphrase salt
  let plaintext := utf8Encode (prim.stringifyConv conversation)
  let encrypted := prim.aesGcmEncrypt key iv plaintext
  { id := conversation.id
    createdAt := conversation.createdAt
    payload := bytesToBase64 encrypted
    iv := bytesToBase64 iv
    salt := bytesToBase64 salt
    v := 1 }

/-- storage.ts `decryptConversation`; `none` models the thrown WebCrypto
error on authentication failure (surfaced as the wrong-passphrase
`VaultUnlockError` condition). -/
def decryptConversation (prim : CryptoPrim)
    (record : EncryptedConversationRecord) (passphrase : String) :
    Option Conversation :=
  let salt := base64ToBytes record.salt
  let iv := base64ToBytes record.iv
  let encrypted := base64ToBytes record.payload
  let key := prim.pbkdf2Key passphrase salt
  (prim.aesGcmDecrypt key iv encrypted).map
    (fun plaintext => prim.parseConv (prim.utf8Decode plaintext))

/-- An item of the IndexedDB object store.  `isLegacyConversation`
distinguishes the two shapes the store can hold: a plaintext legacy
`Conversation` (which has a `messages` array) is passed through unchanged,
anything else is treated as an `EncryptedConversationRecord`. -/
inductive StoredItem where
  | legacy (c : Conversation)
  | encrypted (r : EncryptedConversationRecord)
deriving DecidableEq

/-- Per-item branch of `getAllConversations`. -/
def decryptStored (prim : CryptoPrim) (passphrase : String) :
    StoredItem → Option Conversation
  | .legacy c => some c
  | .encrypted r => decryptConversation prim r passphrase

/-- JS `Promise.all` over the per-record decryptions: the whole batch fails
(`none`, the `VaultUnlockError` condition) as soon as any single record
fails to decrypt. -/
def decryptAllStored (prim : CryptoPrim) (passphrase : String) :
    List StoredItem → Option (List Conversation)
  | [] => some []
  | item :: rest =>
    match decryptStored prim passphrase item,
        decryptAllStored prim passphrase rest with
    | some c, some cs => some (c :: cs)
    | _, _ => none

/-- storage.ts `getAllConversations`: empty passphrase short-circuits to
`[]`; otherwise decrypt every stored record and sort by `createdAt`
descending (`(a, b) => b.createdAt - a.createdAt`, a stable sort). -/
def getAllConversations (prim : CryptoPrim) (passphrase : String)
    (records : List StoredItem) : Option (List Conversation) :=
  if passphrase = "" then some []
  else
    match decryptAllStored prim passphrase records with
    | Option.none => none
    | some decrypted =>
      some (decrypted.mergeSort (fun a b => decide (b.createdAt ≤ a.createdAt)))

/-! ## Streamed exchange (near-ai.ts `streamChat`) -/

/-- Chat message roles sent to the model. -/
inductive ChatRole where
  | system
  | user
  | assistant
deriving DecidableEq

structure ChatMessage where
  role : ChatRole
  content : String
deriving DecidableEq

/-- The E2EE branch of `streamChat`: ONE client keypair is generated for
the exchange (`clientKeys = await generateClientKeys()`), then the loop
`for i in messages` replaces each message's content by
`encryptMessageWithClientKeys(content, modelPubKey, clientKeys)`.  Each
encryption call draws a fresh random GCM nonce, supplied here as the list
`nonces` (one per message). -/
def encryptHistoryForStream (prim : CryptoPrim) (messages : List ChatMessage)
    (modelPubKeyHex : String) (clientKeys : E2EEKeys)
    (nonces : List (List Nat)) : List ChatMessage :=
  (messages.zip nonces).map (fun p =>
    { p.1 with
      content := encryptMessageWithClientKeys prim p.1.content modelPubKeyHex
        clientKeys p.2 })

/-- The per-delta branch of the `streamChat` read loop: in E2EE mode try to
decrypt the delta and, when decryption throws, fall back to the raw delta;
outside E2EE mode pass the delta through. -/
def processDelta (prim : CryptoPrim) (useE2EE : Bool)
    (clientKeys : Option E2EEKeys) (delta : String) : String :=
  match useE2EE, clientKeys with
  | true, some keys =>
    match decryptResponse prim delta keys.privateKey with
    | some decrypted => decrypted
    | Option.none => delta
  | _, _ => delta

/-- One iteration of the read loop: `fullContent += out; onChunk(out)`. -/
def streamStep (prim : CryptoPrim) (useE2EE : Bool)
    (clientKeys : Option E2EEKeys) (st : String × List String)
    (delta : String) : String × List String :=
  (st.1 ++ processDelta prim useE2EE clientKeys delta,
    st.2 ++ [processDelta prim useE2EE clientKeys delta])

/-- The accumulation done by the read loop over the delivered deltas:
first component is `fullContent`, second the sequence of `onChunk`
payloads, in arrival order. -/
def streamFold (prim : CryptoPrim) (useE2EE : Bool)
    (clientKeys : Option E2EEKeys) (deltas : List String) :
    String × List String :=
  deltas.foldl (streamStep prim useE2EE clientKeys) ("", [])

/-! ## Retention (page.tsx `createEmptyConvo`, `purgeExpired`) -/

/-- page.tsx `createEmptyConvo` (default argument `retentionHours = 24`);
`id` stands for `crypto.randomUUID()` and `createdAt` for `Date.now()`.
`retentionHours ? createdAt + retentionHours * 60 * 60 * 1000 : null` is
JS truthiness: both `null` and `0` give `expiresAt = null`. -/
def createEmptyConvo (id : String) (createdAt : Nat)
    (retentionHours : Option Nat) : Conversation :=
  { id := id
    title := "New conversation"
    messages := []
    createdAt := createdAt
    retentionHours := retentionHours
    expiresAt :=
      match retentionHours with
      | some h => if h = 0 then none else some (createdAt + h * 60 * 60 * 1000)
      | Option.none => none
    plans := some [] }

/-- page.tsx `purgeExpired`'s per-conversation test:
`Boolean(convo.expiresAt && convo.expiresAt <= now)` (an `expiresAt` of
`0` is falsy). -/
def isExpired (convo : Conversation) (now : Nat) : Bool :=
  match convo.expiresAt with
  | some e => !(e == 0) && decide (e ≤ now)
  | Option.none => false

/-- page.tsx `purgeExpired`: keep exactly the conversations that are not
expired (the expired ids are then deleted from the vault; the UI also
replaces a fully-emptied list with one fresh conversation, which is
outside the retention claim). -/
def purgeExpired (convos : List Conversation) (now : Nat) : List Conversation :=
  convos.filter (fun convo => !isExpired convo now)

/-! ## A concrete primitive bundle

A small executable instance of `CryptoPrim` used to witness the theorems on
concrete inputs: an authenticated toy cipher (plaintext followed by a
16-byte checksum tag over key, nonce and plaintext), a constant shared
secret, and byte-wise reductions for the KDFs.  It satisfies the AEAD
round-trip, byte-range and ciphertext-length hypotheses of the claims. -/

def toyTag (k n pt : List Nat) : List Nat :=
  List.replicate 16 ((k.sum + n.sum + pt.sum + k.length) % 256)

def toyAesEnc (k n pt : List Nat) : List Nat := pt ++ toyTag k n pt

def toyAesDec (k n ct : List Nat) : Option (List Nat) :=
  if ct.drop (ct.length - 16) = toyTag k n (ct.take (ct.length - 16)) then
    some (ct.take (ct.length - 16))
  else none

/-- Fixed conversation used by the vault witnesses. -/
def convW : Conversation :=
  { id := "c1"
    title := "t"
    messages := []
    createdAt := 5
    retentionHours := none
    expiresAt := none
    plans := some [] }

def toyPrim : CryptoPrim :=
  { getSharedSecret := fun _ _ => List.replicate 65 2
    getPublicKey := fun _ => List.replicate 65 4
    hkdfSha256 := fun ikm => ikm.map (fun b => b % 256)
    aesGcmEncrypt := toyAesEnc
    aesGcmDecrypt := toyAesDec
    utf8Decode := fun bs => ⟨bs.map Char.ofNat⟩
    pbkdf2Key := fun pass salt =>
      (pass.data.map Char.toNat ++ salt).map (fun b => b % 256)
    stringifyConv := fun _ => "conversation-json"
    parseConv := fun _ => convW }

/-! ## Concrete witness inputs -/

/-- A 65-byte uncompressed public key, hex encoded (130 characters). -/
def pubHexA : String := bytesToHex (4 :: List.replicate 64 7)

def pubHexB : String := bytesToHex (4 :: List.replicate 64 9)

def keysA : E2EEKeys := { publicKeyHex := pubHexA, privateKey := [1, 2, 3] }

def keysB : E2EEKeys := { publicKeyHex := pubHexB, privateKey := [4, 5] }

def nonceW : List Nat := List.replicate 12 3

def nonceW2 : List Nat := List.replicate 12 5

/-- A 128-character hex signing key for the attestation witness. -/
def keyHexW : String := bytesToHex (List.replicate 64 171)

/-- Attestation body `{model_attestations: [{signing_public_key: keyHexW}]}`. -/
def dataW : JsonValue :=
  .obj (.cons "model_attestations"
    (.arr (.cons (.obj (.cons "signing_public_key" (.str keyHexW) .nil)) .nil))
    .nil)

/-- The report the witness body produces. -/
def reportW : AttestationReport :=
  (fetchModelPublicKey true dataW "ff" 0).getD
    { signingPublicKey := ""
      keyFingerprint := ""
      signingAlgo := ""
      environment := ""
      model := ""
      verified := false
      verificationLevel := .none
      nonceMatched := false
      nonce := ""
      checkedAt := 0
      note := "" }

/-- Encrypted vault record of `convW` under passphrase `"correct"`. -/
def recW : EncryptedConversationRecord :=
  encryptConversation toyPrim convW "correct" [0] [1]

/-- Two-message history for the stream counterexample. -/
def msgsW : List ChatMessage :=
  [{ role := .user, content := "m1" }, { role := .user, content := "m2" }]

def defaultMsg : ChatMessage := { role := .user, content := "" }

/-- The encrypted history `streamChat` produces for `msgsW` with the single
per-exchange client keypair `keysA`. -/
def streamOutW : List ChatMessage :=
  encryptHistoryForStream toyPrim msgsW pubHexB keysA [nonceW, nonceW2]

/-! ## Properties and claim theorems -/

theorem hexDigitVal_lt_16 {c : Char} {v : Nat} (h : hexDigitVal c = some v) :
    v < 16 := by
  unfold hexDigitVal at h
  split at h
  · simp only [Option.some.injEq] at h; omega
  · split at h
    · simp only [Option.some.injEq] at h; omega
    · split at h
      · simp only [Option.some.injEq] at h; omega
      · exact absurd h (by simp)

theorem hexPairVal_lt_256 (c1 c2 : Char) : hexPairVal c1 c2 < 256 := by
  unfold hexPairVal
  cases h1 : hexDigitVal c1 with
  | none => show (0 : Nat) < 256; omega
  | some v1 =>
    have hv1 := hexDigitVal_lt_16 h1
    cases h2 : hexDigitVal c2 with
    | none => show v1 < 256; omega
    | some v2 =>
      have hv2 := hexDigitVal_lt_16 h2
      show 16 * v1 + v2 < 256; omega

theorem hexPairBytes_lt_256 : ∀ (l : List Char), ∀ b ∈ hexPairBytes l, b < 256
  | c1 :: c2 :: rest => by
    intro b hb
    rw [show hexPairBytes (c1 :: c2 :: rest)
          = hexPairVal c1 c2 :: hexPairBytes rest from rfl] at hb
    rcases List.mem_cons.mp hb with h | h
    · exact h ▸ hexPairVal_lt_256 c1 c2
    · exact hexPairBytes_lt_256 rest b h
  | [] => by intro b hb; simp [hexPairBytes] at hb
  | [_] => by intro b hb; simp [hexPairBytes] at hb

theorem hexToBytes_lt_256 (s : String) : ∀ b ∈ hexToBytes s, b < 256 :=
  hexPairBytes_lt_256 _

theorem byteHex_roundtrip : ∀ b < 256, hexPairBytes (byteHexChars b) = [b] := by
  decide

theorem byteHexChars_length : ∀ b < 256, (byteHexChars b).length = 2 := by
  decide

theorem byteHexChars_getD_ne : ∀ b < 256, (byteHexChars b).getD 1 'z' ≠ 'x' := by
  decide

theorem byteHexChars_eq_pair {b : Nat} (h : b < 256) :
    ∃ c1 c2, byteHexChars b = [c1, c2] := by
  have hl := byteHexChars_length b h
  match hc : byteHexChars b with
  | [] => rw [hc] at hl; simp at hl
  | [_] => rw [hc] at hl; simp at hl
  | [c1, c2] => exact ⟨c1, c2, rfl⟩
  | _ :: _ :: _ :: _ => rw [hc] at hl; simp at hl

theorem hexPairBytes_byteHex_append {b : Nat} (h : b < 256) (tail : List Char) :
    hexPairBytes (byteHexChars b ++ tail) = b :: hexPairBytes tail := by
  obtain ⟨c1, c2, hc⟩ := byteHexChars_eq_pair h
  have hrt := byteHex_roundtrip b h
  rw [hc] at hrt ⊢
  have : hexPairVal c1 c2 = b := by
    have : hexPairBytes [c1, c2] = [hexPairVal c1 c2] := rfl
    rw [this] at hrt
    exact List.singleton_injective hrt
  simp only [List.cons_append, List.nil_append]
  rw [show hexPairBytes (c1 :: c2 :: tail) = hexPairVal c1 c2 :: hexPairBytes tail
        from rfl, this]

theorem hexPairBytes_flatten {bs : List Nat} (h : ∀ b ∈ bs, b < 256) :
    hexPairBytes ((bs.map byteHexChars).flatten) = bs := by
  induction bs with
  | nil => rfl
  | cons b rest ih =>
    simp only [List.map_cons, List.flatten_cons]
    rw [hexPairBytes_byteHex_append (h b (List.mem_cons_self b rest))]
    rw [ih (fun x hx => h x (List.mem_cons_of_mem b hx))]

theorem strip0x_bytesToHex {bs : List Nat} (h : ∀ b ∈ bs, b < 256) :
    strip0x ((bs.map byteHexChars).flatten) = (bs.map byteHexChars).flatten := by
  cases bs with
  | nil => rfl
  | cons b rest =>
    have hb := h b (List.mem_cons_self b rest)
    obtain ⟨c1, c2, hc⟩ := byteHexChars_eq_pair hb
    have hne : c2 ≠ 'x' := by
      have := byteHexChars_getD_ne b hb
      rw [hc] at this
      exact this
    simp only [List.map_cons, List.flatten_cons, hc, List.cons_append,
      List.nil_append]
    rw [show strip0x (c1 :: c2 :: ((rest.map byteHexChars).flatten))
          = if c1 = '0' ∧ c2 = 'x' then (rest.map byteHexChars).flatten
            else c1 :: c2 :: ((rest.map byteHexChars).flatten) from rfl]
    rw [if_neg (fun hx => hne hx.2)]

/-- Hex round-trip used by the ECIES blob claims: decoding an encoded byte
sequence gives the bytes back. -/
theorem hexToBytes_bytesToHex {bs : List Nat} (h : ∀ b ∈ bs, b < 256) :
    hexToBytes (bytesToHex bs) = bs := by
  show hexPairBytes (strip0x ((bs.map byteHexChars).flatten)) = bs
  rw [strip0x_bytesToHex h, hexPairBytes_flatten h]

/-- Each byte below 256 encodes as exactly two hex characters. -/
theorem bytesToHex_length {bs : List Nat} (h : ∀ b ∈ bs, b < 256) :
    (bytesToHex bs).length = 2 * bs.length := by
  show ((bs.map byteHexChars).flatten).length = 2 * bs.length
  induction bs with
  | nil => rfl
  | cons b rest ih =>
    simp only [List.map_cons, List.flatten_cons, List.length_append,
      List.length_cons]
    rw [byteHexChars_length b (h b (List.mem_cons_self b rest)),
      ih (fun x hx => h x (List.mem_cons_of_mem b hx))]
    ring

theorem char_toNat_lt (c : Char) : c.toNat < 1114112 := by
  rcases c.valid with h | ⟨_, h⟩
  · exact Nat.lt_trans h (by norm_num)
  · exact h

theorem utf8EncodeCharBytes_lt_256 (c : Char) :
    ∀ b ∈ utf8EncodeCharBytes c, b < 256 := by
  have hc := char_toNat_lt c
  unfold utf8EncodeCharBytes
  split
  · intro b hb; simp at hb; omega
  · split
    · intro b hb; simp at hb; rcases hb with h | h <;> omega
    · split
      · intro b hb; simp at hb; rcases hb with h | h | h <;> omega
      · intro b hb; simp at hb; rcases hb with h | h | h | h <;> omega

theorem utf8Encode_lt_256 (s : String) : ∀ b ∈ utf8Encode s, b < 256 := by
  intro b hb
  obtain ⟨l, hl, hbl⟩ := List.mem_flatten.mp hb
  obtain ⟨c, _, hcl⟩ := List.mem_map.mp hl
  exact utf8EncodeCharBytes_lt_256 c b (hcl ▸ hbl)

theorem b64Val_b64Char : ∀ v < 64, b64Val (b64Char v) = v := by decide

theorem b64Char_ne_eq : ∀ v < 64, b64Char v ≠ '=' := by decide

/-- Base64 round-trip for byte sequences. -/
theorem base64ToBytes_bytesToBase64 :
    ∀ (bs : List Nat), (∀ b ∈ bs, b < 256) →
      base64ToBytes (bytesToBase64 bs) = bs
  | [] => fun _ => rfl
  | [b1] => by
    intro h
    have hb1 : b1 < 256 := h b1 (by simp)
    show base64DecodeChars
        [b64Char (b1 / 4), b64Char ((b1 % 4) * 16), '=', '='] = [b1]
    rw [show base64DecodeChars [b64Char (b1 / 4), b64Char ((b1 % 4) * 16), '=', '=']
          = [b64Val (b64Char (b1 / 4)) * 4 + b64Val (b64Char ((b1 % 4) * 16)) / 16]
        from rfl]
    rw [b64Val_b64Char (b1 / 4) (by omega), b64Val_b64Char ((b1 % 4) * 16) (by omega)]
    congr 1
    omega
  | [b1, b2] => by
    intro h
    have hb1 : b1 < 256 := h b1 (by simp)
    have hb2 : b2 < 256 := h b2 (by simp)
    show base64DecodeChars
        [b64Char (b1 / 4), b64Char ((b1 % 4) * 16 + b2 / 16),
          b64Char ((b2 % 16) * 4), '='] = [b1, b2]
    rw [show base64DecodeChars [b64Char (b1 / 4), b64Char ((b1 % 4) * 16 + b2 / 16),
            b64Char ((b2 % 16) * 4), '=']
          = if b64Char ((b2 % 16) * 4) = '=' then
              [b64Val (b64Char (b1 / 4)) * 4
                + b64Val (b64Char ((b1 % 4) * 16 + b2 / 16)) / 16]
            else
              [b64Val (b64Char (b1 / 4)) * 4
                + b64Val (b64Char ((b1 % 4) * 16 + b2 / 16)) / 16,
                (b64Val (b64Char ((b1 % 4) * 16 + b2 / 16)) % 16) * 16
                  + b64Val (b64Char ((b2 % 16) * 4)) / 4]
        from rfl]
    rw [if_neg (b64Char_ne_eq ((b2 % 16) * 4) (by omega))]
    rw [b64Val_b64Char (b1 / 4) (by omega),
      b64Val_b64Char ((b1 % 4) * 16 + b2 / 16) (by omega),
      b64Val_b64Char ((b2 % 16) * 4) (by omega)]
    have e1 : b1 / 4 * 4 + ((b1 % 4) * 16 + b2 / 16) / 16 = b1 := by omega
    have e2 : ((b1 % 4) * 16 + b2 / 16) % 16 * 16 + (b2 % 16) * 4 / 4 = b2 := by
      omega
    rw [e1, e2]
  | b1 :: b2 :: b3 :: rest => by
    intro h
    have hb1 : b1 < 256 := h b1 (by simp)
    have hb2 : b2 < 256 := h b2 (by simp)
    have hb3 : b3 < 256 := h b3 (by simp)
    have hrest : ∀ b ∈ rest, b < 256 := fun b hb => h b (by simp [hb])
    show base64DecodeChars
        (b64Char (b1 / 4) :: b64Char ((b1 % 4) * 16 + b2 / 16) ::
          b64Char ((b2 % 16) * 4 + b3 / 64) :: b64Char (b3 % 64) ::
          bytesToBase64Chars rest) = b1 :: b2 :: b3 :: rest
    rw [show base64DecodeChars
          (b64Char (b1 / 4) :: b64Char ((b1 % 4) * 16 + b2 / 16) ::
            b64Char ((b2 % 16) * 4 + b3 / 64) :: b64Char (b3 % 64) ::
            bytesToBase64Chars rest)
        = if b64Char ((b2 % 16) * 4 + b3 / 64) = '=' then
            [b64Val (b64Char (b1 / 4)) * 4
              + b64Val (b64Char ((b1 % 4) * 16 + b2 / 16)) / 16]
          else if b64Char (b3 % 64) = '=' then
            [b64Val (b64Char (b1 / 4)) * 4
              + b64Val (b64Char ((b1 % 4) * 16 + b2 / 16)) / 16,
              (b64Val (b64Char ((b1 % 4) * 16 + b2 / 16)) % 16) * 16
                + b64Val (b64Char ((b2 % 16) * 4 + b3 / 64)) / 4]
          else
            (b64Val (b64Char (b1 / 4)) * 4
              + b64Val (b64Char ((b1 % 4) * 16 + b2 / 16)) / 16) ::
              ((b64Val (b64Char ((b1 % 4) * 16 + b2 / 16)) % 16) * 16
                + b64Val (b64Char ((b2 % 16) * 4 + b3 / 64)) / 4) ::
              ((b64Val (b64Char ((b2 % 16) * 4 + b3 / 64)) % 4) * 64
                + b64Val (b64Char (b3 % 64))) ::
              base64DecodeChars (bytesToBase64Chars rest)
        from rfl]
    rw [if_neg (b64Char_ne_eq ((b2 % 16) * 4 + b3 / 64) (by omega)),
      if_neg (b64Char_ne_eq (b3 % 64) (by omega))]
    rw [b64Val_b64Char (b1 / 4) (by omega),
      b64Val_b64Char ((b1 % 4) * 16 + b2 / 16) (by omega),
      b64Val_b64Char ((b2 % 16) * 4 + b3 / 64) (by omega),
      b64Val_b64Char (b3 % 64) (by omega)]
    have e1 : b1 / 4 * 4 + ((b1 % 4) * 16 + b2 / 16) / 16 = b1 := by omega
    have e2 : ((b1 % 4) * 16 + b2 / 16) % 16 * 16
        + ((b2 % 16) * 4 + b3 / 64) / 4 = b2 := by omega
    have e3 : ((b2 % 16) * 4 + b3 / 64) % 4 * 64 + b3 % 64 = b3 := by omega
    rw [e1, e2, e3]
    rw [show base64DecodeChars (bytesToBase64Chars rest)
          = base64ToBytes (bytesToBase64 rest) from rfl,
      base64ToBytes_bytesToBase64 rest hrest]

theorem normalizePubKey_lt_256 (s : String) :
    ∀ b ∈ normalizePubKey s, b < 256 := by
  intro b hb
  rw [show normalizePubKey s
        = if (hexPairBytes (strip0x (strip0x s.data))).length = 64 then
            4 :: hexPairBytes (strip0x (strip0x s.data))
          else hexPairBytes (strip0x (strip0x s.data)) from rfl] at hb
  split at hb
  · rcases List.mem_cons.mp hb with h | h
    · omega
    · exact hexPairBytes_lt_256 _ b h
  · exact hexPairBytes_lt_256 _ b hb

theorem append_bytes_lt {l1 l2 : List Nat} (h1 : ∀ b ∈ l1, b < 256)
    (h2 : ∀ b ∈ l2, b < 256) : ∀ b ∈ l1 ++ l2, b < 256 := by
  intro b hb
  rcases List.mem_append.mp hb with h | h
  · exact h1 b h
  · exact h2 b h

/-- Splitting an encoded `eph ‖ nonce ‖ ct` blob back at the 65/12/rest
offsets recovers the three segments. -/
theorem hex_blob_split (eph nonce ct : List Nat)
    (hbytes : ∀ b ∈ eph ++ nonce ++ ct, b < 256)
    (hPubLen : eph.length = 65) (hNonceLen : nonce.length = 12) :
    hexToBytes (bytesToHex (eph ++ nonce ++ ct)) = eph ++ nonce ++ ct
    ∧ (eph ++ nonce ++ ct).take 65 = eph
    ∧ ((eph ++ nonce ++ ct).drop 65).take 12 = nonce
    ∧ (eph ++ nonce ++ ct).drop 77 = ct := by
  refine ⟨hexToBytes_bytesToHex hbytes, ?_, ?_, ?_⟩
  · rw [List.append_assoc, ← hPubLen]
    exact List.take_left _ _
  · rw [List.append_assoc, ← hPubLen, List.drop_left, ← hNonceLen]
    exact List.take_left _ _
  · have h77 : (eph ++ nonce).length = 77 := by
      rw [List.length_append, hPubLen, hNonceLen]
    rw [← h77]
    exact List.drop_left _ _

theorem toyAes_roundtrip (k n pt : List Nat) :
    toyPrim.aesGcmDecrypt k n (toyPrim.aesGcmEncrypt k n pt) = some pt := by
  show toyAesDec k n (toyAesEnc k n pt) = some pt
  unfold toyAesDec toyAesEnc
  have hlen : (pt ++ toyTag k n pt).length - 16 = pt.length := by
    simp [toyTag]
  rw [hlen, List.take_left, List.drop_left, if_pos rfl]

theorem toyAes_bytes (k n pt : List Nat) (_ : ∀ b ∈ k, b < 256)
    (_ : ∀ b ∈ n, b < 256) (hpt : ∀ b ∈ pt, b < 256) :
    ∀ b ∈ toyPrim.aesGcmEncrypt k n pt, b < 256 := by
  intro b hb
  rcases List.mem_append.mp hb with h | h
  · exact hpt b h
  · rw [List.eq_of_mem_replicate h]
    exact Nat.mod_lt _ (by omega)

theorem toyAes_len (k n pt : List Nat) :
    (toyPrim.aesGcmEncrypt k n pt).length = pt.length + 16 := by
  show (pt ++ toyTag k n pt).length = pt.length + 16
  simp [toyTag]

theorem toyHkdf_bytes (ikm : List Nat) :
    ∀ b ∈ toyPrim.hkdfSha256 ikm, b < 256 := by
  intro b hb
  obtain ⟨a, _, ha⟩ := List.mem_map.mp hb
  rw [← ha]
  exact Nat.mod_lt _ (by omega)

theorem toyPbkdf2_bytes (pass : String) (salt : List Nat) :
    ∀ b ∈ toyPrim.pbkdf2Key pass salt, b < 256 := by
  intro b hb
  obtain ⟨a, _, ha⟩ := List.mem_map.mp hb
  rw [← ha]
  exact Nat.mod_lt _ (by omega)

/-- C1: for every plaintext `P` and valid keypairs `A`, `B` (ECDH agreeing
on both sides, 65-byte normalized public key for `A`), decrypting with
`B`'s private key the blob of `encryptMessageWithClientKeys(P, B.public, A)`
reproduces `P`, assuming the AES-GCM/HKDF/UTF-8 primitive contracts. -/
theorem encrypt_decrypt_roundtrip (prim : CryptoPrim) (plaintext : String)
    (A B : E2EEKeys) (nonce : List Nat)
    (hAesRT : ∀ k n pt,
      prim.aesGcmDecrypt k n (prim.aesGcmEncrypt k n pt) = some pt)
    (hAesBytes : ∀ k n pt, (∀ b ∈ k, b < 256) → (∀ b ∈ n, b < 256) →
      (∀ b ∈ pt, b < 256) → ∀ b ∈ prim.aesGcmEncrypt k n pt, b < 256)
    (hHkdfBytes : ∀ ikm, ∀ b ∈ prim.hkdfSha256 ikm, b < 256)
    (hEcdh : prim.getSharedSecret B.privateKey (normalizePubKey A.publicKeyHex)
      = prim.getSharedSecret A.privateKey (normalizePubKey B.publicKeyHex))
    (hUtf8 : prim.utf8Decode (utf8Encode plaintext) = plaintext)
    (hPubLen : (normalizePubKey A.publicKeyHex).length = 65)
    (hNonceLen : nonce.length = 12)
    (hNonceBytes : ∀ b ∈ nonce, b < 256) :
    decryptResponse prim
      (encryptMessageWithClientKeys prim plaintext B.publicKeyHex A nonce)
      B.privateKey = some plaintext := by
  set eph := normalizePubKey A.publicKeyHex with heph
  set sk := prim.hkdfSha256
    (((prim.getSharedSecret A.privateKey (normalizePubKey B.publicKeyHex)).drop 1).take 32)
    with hsk
  set ct := prim.aesGcmEncrypt sk nonce (utf8Encode plaintext) with hct
  have hbytes : ∀ b ∈ eph ++ nonce ++ ct, b < 256 :=
    append_bytes_lt
      (append_bytes_lt (normalizePubKey_lt_256 _) hNonceBytes)
      (hAesBytes _ _ _ (hHkdfBytes _) hNonceBytes (utf8Encode_lt_256 _))
  obtain ⟨hdec, htake, hnonce, hdrop⟩ :=
    hex_blob_split eph nonce ct hbytes hPubLen hNonceLen
  show (prim.aesGcmDecrypt
      (prim.hkdfSha256
        (((prim.getSharedSecret B.privateKey
          ((hexToBytes (bytesToHex (eph ++ nonce ++ ct))).take 65)).drop 1).take 32))
      (((hexToBytes (bytesToHex (eph ++ nonce ++ ct))).drop 65).take 12)
      ((hexToBytes (bytesToHex (eph ++ nonce ++ ct))).drop 77)).map prim.utf8Decode
    = some plaintext
  rw [hdec, htake, hnonce, hdrop, hEcdh, ← hsk, hct, hAesRT, Option.map_some',
    hUtf8]

/-- C1 witness: concrete round-trip under the executable primitive bundle. -/
theorem encrypt_decrypt_roundtrip_witness :
    decryptResponse toyPrim
      (encryptMessageWithClientKeys toyPrim "hi" pubHexB keysA nonceW)
      keysB.privateKey = some "hi" :=
  encrypt_decrypt_roundtrip toyPrim "hi" keysA keysB nonceW
    toyAes_roundtrip toyAes_bytes toyHkdf_bytes rfl (by decide) (by decide)
    (by decide) (by decide)

/-- C9: the encrypted blob is the hex encoding of exactly
`ephemeralPub(65) ‖ nonce(12) ‖ ciphertext+tag`, decryption splits it at
those fixed offsets, and a 5-byte plaintext such as `"hello"` yields a
blob of `(65+12+5+16)*2 = 196` hex characters. -/
theorem ecies_blob_layout (prim : CryptoPrim) (plaintext : String)
    (mp : String) (ck : E2EEKeys) (nonce : List Nat)
    (hAesLen : ∀ k n pt, (prim.aesGcmEncrypt k n pt).length = pt.length + 16)
    (hAesBytes : ∀ k n pt, (∀ b ∈ k, b < 256) → (∀ b ∈ n, b < 256) →
      (∀ b ∈ pt, b < 256) → ∀ b ∈ prim.aesGcmEncrypt k n pt, b < 256)
    (hHkdfBytes : ∀ ikm, ∀ b ∈ prim.hkdfSha256 ikm, b < 256)
    (hPubLen : (normalizePubKey ck.publicKeyHex).length = 65)
    (hNonceLen : nonce.length = 12)
    (hNonceBytes : ∀ b ∈ nonce, b < 256) :
    hexToBytes (encryptMessageWithClientKeys prim plaintext mp ck nonce)
      = normalizePubKey ck.publicKeyHex ++ nonce
        ++ prim.aesGcmEncrypt
          (prim.hkdfSha256
            (((prim.getSharedSecret ck.privateKey (normalizePubKey mp)).drop 1).take 32))
          nonce (utf8Encode plaintext)
    ∧ (hexToBytes (encryptMessageWithClientKeys prim plaintext mp ck nonce)).take 65
      = normalizePubKey ck.publicKeyHex
    ∧ ((hexToBytes (encryptMessageWithClientKeys prim plaintext mp ck nonce)).drop 65).take 12
      = nonce
    ∧ (hexToBytes (encryptMessageWithClientKeys prim plaintext mp ck nonce)).drop 77
      = prim.aesGcmEncrypt
          (prim.hkdfSha256
            (((prim.getSharedSecret ck.privateKey (normalizePubKey mp)).drop 1).take 32))
          nonce (utf8Encode plaintext)
    ∧ (encryptMessageWithClientKeys prim plaintext mp ck nonce).length
      = 2 * (65 + 12 + ((utf8Encode plaintext).length + 16))
    ∧ (encryptMessageWithClientKeys prim "hello" mp ck nonce).length = 196 := by
  set eph := normalizePubKey ck.publicKeyHex with heph
  set sk := prim.hkdfSha256
    (((prim.getSharedSecret ck.privateKey (normalizePubKey mp)).drop 1).take 32)
    with hsk
  set ct := prim.aesGcmEncrypt sk nonce (utf8Encode plaintext) with hct
  set ct5 := prim.aesGcmEncrypt sk nonce (utf8Encode "hello") with hct5
  have hbytes : ∀ b ∈ eph ++ nonce ++ ct, b < 256 :=
    append_bytes_lt
      (append_bytes_lt (normalizePubKey_lt_256 _) hNonceBytes)
      (hAesBytes _ _ _ (hHkdfBytes _) hNonceBytes (utf8Encode_lt_256 _))
  have hbytes5 : ∀ b ∈ eph ++ nonce ++ ct5, b < 256 :=
    append_bytes_lt
      (append_bytes_lt (normalizePubKey_lt_256 _) hNonceBytes)
      (hAesBytes _ _ _ (hHkdfBytes _) hNonceBytes (utf8Encode_lt_256 _))
  obtain ⟨hdec, htake, hnonce, hdrop⟩ :=
    hex_blob_split eph nonce ct hbytes hPubLen hNonceLen
  have hblob : hexToBytes (encryptMessageWithClientKeys prim plaintext mp ck nonce)
      = eph ++ nonce ++ ct := hdec
  refine ⟨hblob, ?_, ?_, ?_, ?_, ?_⟩
  · rw [hblob]; exact htake
  · rw [hblob]; exact hnonce
  · rw [hblob]; exact hdrop
  · show (bytesToHex (eph ++ nonce ++ ct)).length
      = 2 * (65 + 12 + ((utf8Encode plaintext).length + 16))
    rw [bytesToHex_length hbytes]
    simp only [List.length_append, hPubLen, hNonceLen, hct, hAesLen]
  · show (bytesToHex (eph ++ nonce ++ ct5)).length = 196
    rw [bytesToHex_length hbytes5]
    simp only [List.length_append, hPubLen, hNonceLen, hct5, hAesLen]
    have h5 : (utf8Encode "hello").length = 5 := by decide
    rw [h5]

/-- C9 witness: concrete blob layout and the 196-character length. -/
theorem ecies_blob_layout_witness :
    hexToBytes (encryptMessageWithClientKeys toyPrim "hi" pubHexB keysA nonceW)
      = normalizePubKey keysA.publicKeyHex ++ nonceW
        ++ toyPrim.aesGcmEncrypt
          (toyPrim.hkdfSha256
            (((toyPrim.getSharedSecret keysA.privateKey (normalizePubKey pubHexB)).drop 1).take 32))
          nonceW (utf8Encode "hi")
    ∧ (hexToBytes (encryptMessageWithClientKeys toyPrim "hi" pubHexB keysA nonceW)).take 65
      = normalizePubKey keysA.publicKeyHex
    ∧ ((hexToBytes (encryptMessageWithClientKeys toyPrim "hi" pubHexB keysA nonceW)).drop 65).take 12
      = nonceW
    ∧ (hexToBytes (encryptMessageWithClientKeys toyPrim "hi" pubHexB keysA nonceW)).drop 77
      = toyPrim.aesGcmEncrypt
          (toyPrim.hkdfSha256
            (((toyPrim.getSharedSecret keysA.privateKey (normalizePubKey pubHexB)).drop 1).take 32))
          nonceW (utf8Encode "hi")
    ∧ (encryptMessageWithClientKeys toyPrim "hi" pubHexB keysA nonceW).length
      = 2 * (65 + 12 + ((utf8Encode "hi").length + 16))
    ∧ (encryptMessageWithClientKeys toyPrim "hello" pubHexB keysA nonceW).length = 196 :=
  ecies_blob_layout toyPrim "hi" pubHexB keysA nonceW
    toyAes_len toyAes_bytes toyHkdf_bytes (by decide) (by decide) (by decide)

theorem getAllConversations_sorted (prim : CryptoPrim) (p : String)
    (rs : List StoredItem) (l : List Conversation)
    (h : getAllConversations prim p rs = some l) :
    l.Sorted (fun a b => b.createdAt ≤ a.createdAt) := by
  unfold getAllConversations at h
  split at h
  · cases h
    exact List.sorted_nil
  · split at h
    · exact absurd h (by simp)
    · rename_i d hd
      cases h
      have hs := @List.sorted_mergeSort Conversation
        (fun a b => decide (b.createdAt ≤ a.createdAt))
        (fun a b c hab hbc => by
          simp only [decide_eq_true_eq] at hab hbc ⊢
          omega)
        (fun a b => by
          simp only [Bool.or_eq_true, decide_eq_true_eq]
          omega)
        d
      exact hs.imp (fun h => of_decide_eq_true h)

theorem decryptConversation_encryptConversation (prim : CryptoPrim)
    (conv : Conversation) (p : String) (salt iv : List Nat)
    (hAesRT : ∀ k n pt,
      prim.aesGcmDecrypt k n (prim.aesGcmEncrypt k n pt) = some pt)
    (hAesBytes : ∀ k n pt, (∀ b ∈ k, b < 256) → (∀ b ∈ n, b < 256) →
      (∀ b ∈ pt, b < 256) → ∀ b ∈ prim.aesGcmEncrypt k n pt, b < 256)
    (hPbkdfBytes : ∀ pass s, ∀ b ∈ prim.pbkdf2Key pass s, b < 256)
    (hSalt : ∀ b ∈ salt, b < 256) (hIv : ∀ b ∈ iv, b < 256)
    (hUtf8 : prim.utf8Decode (utf8Encode (prim.stringifyConv conv))
      = prim.stringifyConv conv)
    (hParse : prim.parseConv (prim.stringifyConv conv) = conv) :
    decryptConversation prim (encryptConversation prim conv p salt iv) p
      = some conv := by
  show (prim.aesGcmDecrypt
      (prim.pbkdf2Key p (base64ToBytes (bytesToBase64 salt)))
      (base64ToBytes (bytesToBase64 iv))
      (base64ToBytes (bytesToBase64
        (prim.aesGcmEncrypt (prim.pbkdf2Key p salt) iv
          (utf8Encode (prim.stringifyConv conv)))))).map
      (fun pt => prim.parseConv (prim.utf8Decode pt)) = some conv
  rw [base64ToBytes_bytesToBase64 salt hSalt,
    base64ToBytes_bytesToBase64 iv hIv,
    base64ToBytes_bytesToBase64 _
      (hAesBytes _ _ _ (hPbkdfBytes _ _) hIv (utf8Encode_lt_256 _)),
    hAesRT, Option.map_some', hUtf8, hParse]

/-- C2: saving a conversation and loading the vault with the same
passphrase returns the conversation unchanged, and every successful load
is sorted by creation time descending. -/
theorem vault_roundtrip_and_sorted (prim : CryptoPrim) (conv : Conversation)
    (p : String) (salt iv : List Nat)
    (hp : p ≠ "")
    (hAesRT : ∀ k n pt,
      prim.aesGcmDecrypt k n (prim.aesGcmEncrypt k n pt) = some pt)
    (hAesBytes : ∀ k n pt, (∀ b ∈ k, b < 256) → (∀ b ∈ n, b < 256) →
      (∀ b ∈ pt, b < 256) → ∀ b ∈ prim.aesGcmEncrypt k n pt, b < 256)
    (hPbkdfBytes : ∀ pass s, ∀ b ∈ prim.pbkdf2Key pass s, b < 256)
    (hSalt : ∀ b ∈ salt, b < 256) (hIv : ∀ b ∈ iv, b < 256)
    (hUtf8 : prim.utf8Decode (utf8Encode (prim.stringifyConv conv))
      = prim.stringifyConv conv)
    (hParse : prim.parseConv (prim.stringifyConv conv) = conv) :
    getAllConversations prim p
      [StoredItem.encrypted (encryptConversation prim conv p salt iv)]
      = some [conv]
    ∧ ∀ rs l, getAllConversations prim p rs = some l →
        l.Sorted (fun a b => b.createdAt ≤ a.createdAt) := by
  have hdec := decryptConversation_encryptConversation prim conv p salt iv
    hAesRT hAesBytes hPbkdfBytes hSalt hIv hUtf8 hParse
  constructor
  · have hall : decryptAllStored prim p
        [StoredItem.encrypted (encryptConversation prim conv p salt iv)]
        = some [conv] := by
      show (match decryptConversation prim (encryptConversation prim conv p salt iv) p,
          decryptAllStored prim p [] with
        | some c, some cs => some (c :: cs)
        | _, _ => none) = some [conv]
      rw [hdec]
      rfl
    rw [getAllConversations, if_neg hp, hall]
    show some (([conv]).mergeSort _) = some [conv]
    rw [List.mergeSort_singleton]
  · exact fun rs l h => getAllConversations_sorted prim p rs l h

/-- C2 witness: concrete save-then-load round-trip. -/
theorem vault_roundtrip_and_sorted_witness :
    getAllConversations toyPrim "correct"
      [StoredItem.encrypted (encryptConversation toyPrim convW "correct" [0] [1])]
      = some [convW]
    ∧ ∀ rs l, getAllConversations toyPrim "correct" rs = some l →
        l.Sorted (fun a b => b.createdAt ≤ a.createdAt) :=
  vault_roundtrip_and_sorted toyPrim convW "correct" [0] [1]
    (by decide) toyAes_roundtrip toyAes_bytes toyPbkdf2_bytes
    (by decide) (by decide) (by decide) rfl

theorem decryptAllStored_none (prim : CryptoPrim) (w : String) :
    ∀ (records : List StoredItem) (r : EncryptedConversationRecord),
      StoredItem.encrypted r ∈ records →
      decryptConversation prim r w = none →
      decryptAllStored prim w records = none := by
  intro records
  induction records with
  | nil => intro r hr; simp at hr
  | cons item rest ih =>
    intro r hr hfail
    rcases List.mem_cons.mp hr with h | h
    · show (match decryptStored prim w item, decryptAllStored prim w rest with
        | some c, some cs => some (c :: cs)
        | _, _ => none) = none
      rw [← h]
      show (match decryptConversation prim r w, decryptAllStored prim w rest with
        | some c, some cs => some (c :: cs)
        | _, _ => none) = none
      rw [hfail]
    · show (match decryptStored prim w item, decryptAllStored prim w rest with
        | some c, some cs => some (c :: cs)
        | _, _ => none) = none
      rw [ih r h hfail]
      cases decryptStored prim w item <;> rfl

theorem decryptAllStored_some (prim : CryptoPrim) (w : String) :
    ∀ (records : List StoredItem) (l : List Conversation),
      decryptAllStored prim w records = some l →
      ∀ r, StoredItem.encrypted r ∈ records →
        ∃ c, decryptConversation prim r w = some c := by
  intro records
  induction records with
  | nil => intro l _ r hr; simp at hr
  | cons item rest ih =>
    intro l h r hr
    unfold decryptAllStored at h
    cases hitem : decryptStored prim w item with
    | none =>
      rw [hitem] at h
      cases decryptAllStored prim w rest <;> exact absurd h (by simp)
    | some c =>
      cases hrest : decryptAllStored prim w rest with
      | none => rw [hitem, hrest] at h; exact absurd h (by simp)
      | some cs =>
        rcases List.mem_cons.mp hr with he | he
        · refine ⟨c, ?_⟩
          rw [← he] at hitem
          exact hitem
        · exact ih cs hrest r he

/-- C3 (amended): with a NON-EMPTY wrong passphrase, a decryption failure
of any single stored record fails the whole batch load, and any successful
load implies every encrypted record decrypted (no partial results).  (With
the empty passphrase the load short-circuits to `[]` without attempting
decryption — see the counterexample.) -/
theorem vault_wrong_passphrase_fails (prim : CryptoPrim) (w : String)
    (records : List StoredItem) (r : EncryptedConversationRecord)
    (hw : w ≠ "")
    (hr : StoredItem.encrypted r ∈ records)
    (hfail : decryptConversation prim r w = none) :
    getAllConversations prim w records = none
    ∧ ∀ rs l, getAllConversations prim w rs = some l →
        ∀ r', StoredItem.encrypted r' ∈ rs →
          ∃ c, decryptConversation prim r' w = some c := by
  constructor
  · rw [getAllConversations, if_neg hw,
      decryptAllStored_none prim w records r hr hfail]
  · intro rs l h r' hr'
    rw [getAllConversations, if_neg hw] at h
    cases hall : decryptAllStored prim w rs with
    | none => rw [hall] at h; exact absurd h (by simp)
    | some d => exact decryptAllStored_some prim w rs d hall r' hr'

/-- C3 counterexample: the empty passphrase is different from the
passphrase `"correct"` the record was saved under and cannot decrypt it,
yet `getAllConversations` resolves successfully (with `[]`) instead of
failing the batch. -/
theorem vault_wrong_passphrase_counterexample :
    decryptConversation toyPrim recW "correct" = some convW
    ∧ decryptConversation toyPrim recW "" = none
    ∧ getAllConversations toyPrim "" [StoredItem.encrypted recW] = some [] := by
  refine ⟨by decide, by decide, by decide⟩

/-- C3 witness: concrete wrong-passphrase batch failure. -/
theorem vault_wrong_passphrase_fails_witness :
    getAllConversations toyPrim "wrong" [StoredItem.encrypted recW] = none
    ∧ ∀ rs l, getAllConversations toyPrim "wrong" rs = some l →
        ∀ r', StoredItem.encrypted r' ∈ rs →
          ∃ c, decryptConversation toyPrim r' "wrong" = some c :=
  vault_wrong_passphrase_fails toyPrim "wrong" [StoredItem.encrypted recW] recW
    (by decide) (by simp) (by decide)

theorem keyLength_eq (s : String) :
    (if starts0x s.data then s.length - 2 else s.length)
      = (String.mk (strip0x s.data)).length := by
  obtain ⟨l⟩ := s
  match l with
  | [] => rfl
  | [c] => rfl
  | c1 :: c2 :: rest =>
    by_cases h1 : c1 = '0'
    · by_cases h2 : c2 = 'x'
      · simp [starts0x, strip0x, h1, h2, String.length]
      · simp [starts0x, strip0x, h1, h2, String.length]
    · simp [starts0x, strip0x, h1, String.length]

theorem keyLooksValid_eq (s : String) :
    (isHex ⟨strip0x s.data⟩
      && ((if starts0x s.data then s.length - 2 else s.length) == 128
        || (if starts0x s.data then s.length - 2 else s.length) == 130))
    = keyFormatValid s := by
  unfold keyFormatValid
  rw [keyLength_eq]

theorem fetchModelPublicKey_levels (resOk : Bool) (data : JsonValue)
    (nonce : String) (checkedAt : Nat) (r : AttestationReport)
    (h : fetchModelPublicKey resOk data nonce checkedAt = some r) :
    (r.verificationLevel = VerificationLevel.nonce
      ↔ keyFormatValid r.signingPublicKey = true
        ∧ findNonceRecursive data nonce = true)
    ∧ (r.verificationLevel = VerificationLevel.format
      ↔ keyFormatValid r.signingPublicKey = true
        ∧ findNonceRecursive data nonce = false)
    ∧ (r.verificationLevel = VerificationLevel.none
      ↔ keyFormatValid r.signingPublicKey = false)
    ∧ (r.verified = true ↔ r.verificationLevel = VerificationLevel.nonce) := by
  unfold fetchModelPublicKey at h
  cases resOk with
  | false => exact absurd h (by simp)
  | true =>
    simp only [Bool.not_true, Bool.false_eq_true, if_false] at h
    split at h
    · exact absurd h (by simp)
    · split at h
      · exact absurd h (by simp)
      · split at h
        · exact absurd h (by simp)
        · rename_i keyVal hkv htru
          simp only [Option.some.injEq] at h
          subst h
          dsimp only
          rw [keyLooksValid_eq]
          cases hA : keyFormatValid (jsToString keyVal) with
          | false =>
            cases hB : findNonceRecursive data nonce with
            | false => simp [hA, hB]
            | true => simp [hA, hB]
          | true =>
            cases hB : findNonceRecursive data nonce with
            | false => simp [hA, hB]
            | true => simp [hA, hB]

/-- C4: whenever the attestation fetch produces a report, its level is
`nonce` exactly when the signing key is format-valid and the request nonce
occurs in the body, `format` when the key is format-valid but the nonce is
not found, `none` otherwise; and `verified` holds exactly at level
`nonce`. -/
theorem attestation_level_characterization (resOk : Bool) (data : JsonValue)
    (nonce : String) (checkedAt : Nat) (r : AttestationReport)
    (h : fetchModelPublicKey resOk data nonce checkedAt = some r) :
    (r.verificationLevel = VerificationLevel.nonce
      ↔ keyFormatValid r.signingPublicKey = true
        ∧ findNonceRecursive data nonce = true)
    ∧ (r.verificationLevel = VerificationLevel.format
      ↔ keyFormatValid r.signingPublicKey = true
        ∧ findNonceRecursive data nonce = false)
    ∧ (r.verificationLevel = VerificationLevel.none
      ↔ keyFormatValid r.signingPublicKey = false)
    ∧ (r.verified = true ↔ r.verificationLevel = VerificationLevel.nonce) :=
  fetchModelPublicKey_levels resOk data nonce checkedAt r h

/-- C4 witness: concrete attestation body with a format-valid key and no
nonce echo. -/
theorem attestation_level_characterization_witness :
    (reportW.verificationLevel = VerificationLevel.nonce
      ↔ keyFormatValid reportW.signingPublicKey = true
        ∧ findNonceRecursive dataW "ff" = true)
    ∧ (reportW.verificationLevel = VerificationLevel.format
      ↔ keyFormatValid reportW.signingPublicKey = true
        ∧ findNonceRecursive dataW "ff" = false)
    ∧ (reportW.verificationLevel = VerificationLevel.none
      ↔ keyFormatValid reportW.signingPublicKey = false)
    ∧ (reportW.verified = true
      ↔ reportW.verificationLevel = VerificationLevel.nonce) :=
  attestation_level_characterization true dataW "ff" 0 reportW (by decide)

/-- C10 counterexample: an attestation body lacking the required field
produces no report at all (the code throws
`"No model public key in attestation response"`), not a report with
verificationLevel `none`. -/
theorem attestation_missing_field_counterexample :
    ¬ ∃ r, fetchModelPublicKey true (JsonValue.obj .nil) "aa" 0 = some r
      ∧ r.verificationLevel = VerificationLevel.none := by
  rintro ⟨r, hr, -⟩
  rw [show fetchModelPublicKey true (JsonValue.obj .nil) "aa" 0 = none
      from rfl] at hr
  exact absurd hr (by simp)

/-- C10 (amended): a body with no attestation entry, or with a missing (or
falsy) signing-key field, makes the check throw — no report is returned;
only a PRESENT but format-invalid signing key yields a report with
verificationLevel `none`. -/
theorem attestation_malformed_handling (resOk : Bool) (data : JsonValue)
    (nonce : String) (t : Nat) :
    ((jGet data "model_attestations").bind (fun a => jIndex a 0) = none →
      fetchModelPublicKey true data nonce t = none)
    ∧ (∀ ma, (jGet data "model_attestations").bind (fun a => jIndex a 0) = some ma →
        jGet ma "signing_public_key" = none →
        fetchModelPublicKey true data nonce t = none)
    ∧ (∀ r, fetchModelPublicKey resOk data nonce t = some r →
        keyFormatValid r.signingPublicKey = false →
        r.verificationLevel = VerificationLevel.none) := by
  refine ⟨?_, ?_, ?_⟩
  · intro hma
    unfold fetchModelPublicKey
    simp only [Bool.not_true, Bool.false_eq_true, if_false]
    split
    · rfl
    · rename_i ma' hma'
      rw [hma] at hma'
      exact absurd hma' (by simp)
  · intro ma hma hkv
    unfold fetchModelPublicKey
    simp only [Bool.not_true, Bool.false_eq_true, if_false]
    split
    · rfl
    · rename_i ma' hma'
      rw [hma] at hma'
      injection hma' with hma'
      subst hma'
      split
      · rfl
      · rename_i kv hkv'
        rw [hkv] at hkv'
        exact absurd hkv' (by simp)
  · intro r h hfv
    exact (fetchModelPublicKey_levels resOk data nonce t r h).2.2.1.mpr hfv

/-- C10 witness: a concrete body with no attestation entry yields no
report. -/
theorem attestation_malformed_handling_witness :
    fetchModelPublicKey true (JsonValue.obj .nil) "aa" 0 = none :=
  (attestation_malformed_handling true (JsonValue.obj .nil) "aa" 0).1 rfl

/-- C6: the verification result's `signatureTextMatches` holds exactly when
a signature record was fetched whose `text` is the literal string
`requestHash + ":" + responseHash`; an unfetchable record (non-2xx or
missing fields) gives `signatureFetched = false` and the operation still
returns a result (the function is total). -/
theorem verification_text_match (chatId requestHash responseHash : String)
    (resOk : Bool) (body : JsonValue) :
    ((buildVerification chatId requestHash responseHash resOk body).signatureTextMatches = true
      ↔ ∃ s, fetchChatSignature resOk body = some s
          ∧ s.text = JsonValue.str (requestHash ++ ":" ++ responseHash))
    ∧ (fetchChatSignature resOk body = none →
        (buildVerification chatId requestHash responseHash resOk body).signatureFetched = false)
    ∧ (∀ s, fetchChatSignature resOk body = some s →
        (buildVerification chatId requestHash responseHash resOk body).signatureFetched = true)
    ∧ (resOk = false →
        (buildVerification chatId requestHash responseHash resOk body).signatureFetched = false
        ∧ (buildVerification chatId requestHash responseHash resOk body).signatureTextMatches = false)
    ∧ (buildVerification chatId requestHash responseHash resOk body).chatId = chatId
    ∧ (buildVerification chatId requestHash responseHash resOk body).requestHash = requestHash
    ∧ (buildVerification chatId requestHash responseHash resOk body).responseHash = responseHash := by
  unfold buildVerification
  cases hs : fetchChatSignature resOk body with
  | none =>
    dsimp only
    refine ⟨by simp, fun _ => rfl, ?_, fun _ => ⟨rfl, rfl⟩, rfl, rfl, rfl⟩
    intro s h
    exact absurd h (by simp)
  | some s =>
    dsimp only
    refine ⟨?_, ?_, fun _ _ => rfl, ?_, rfl, rfl, rfl⟩
    · cases ht : s.text with
      | str t =>
        constructor
        · intro h
          refine ⟨s, rfl, ?_⟩
          rw [ht]
          exact congrArg JsonValue.str (by
            exact eq_of_beq h)
        · rintro ⟨s', hs', htext⟩
          injection hs' with hs'
          subst hs'
          rw [ht] at htext
          injection htext with htext
          subst htext
          exact beq_self_eq_true _
      | num n => simp [ht]
      | bool b => simp [ht]
      | null => simp [ht]
      | arr items => simp [ht]
      | obj fields => simp [ht]
    · intro h
      exact absurd h (by simp)
    · intro hfalse
      subst hfalse
      rw [show fetchChatSignature false body = none from rfl] at hs
      exact absurd hs (by simp)

theorem streamFold_acc (prim : CryptoPrim) (e2ee : Bool) (ck : Option E2EEKeys) :
    ∀ (deltas : List String) (acc : String × List String),
      deltas.foldl (streamStep prim e2ee ck) acc
        = (acc.1 ++ (streamFold prim e2ee ck deltas).1,
            acc.2 ++ (streamFold prim e2ee ck deltas).2) := by
  intro deltas
  induction deltas with
  | nil =>
    intro acc
    obtain ⟨a1, a2⟩ := acc
    show (a1, a2) = (a1 ++ ("" : String), a2 ++ ([] : List String))
    rw [String.append_empty, List.append_nil]
  | cons d rest ih =>
    intro acc
    obtain ⟨a1, a2⟩ := acc
    show rest.foldl (streamStep prim e2ee ck)
        (streamStep prim e2ee ck (a1, a2) d) = _
    rw [ih]
    have hR : streamFold prim e2ee ck (d :: rest)
        = ("" ++ processDelta prim e2ee ck d ++ (streamFold prim e2ee ck rest).1,
            ([] ++ [processDelta prim e2ee ck d]) ++ (streamFold prim e2ee ck rest).2) := by
      show rest.foldl (streamStep prim e2ee ck)
          (streamStep prim e2ee ck ("", []) d) = _
      rw [ih]
      rfl
    rw [hR]
    simp only [streamStep, String.empty_append, List.nil_append,
      String.append_assoc, List.append_assoc, List.singleton_append]

/-- C7: a delivered chunk on which `decryptResponse` fails is appended and
delivered raw (treated as already-plaintext), and the rest of the stream is
still processed — the failure never aborts the loop. -/
theorem decrypt_failure_fallback (prim : CryptoPrim) (keys : E2EEKeys)
    (pre post : List String) (delta : String)
    (hfail : decryptResponse prim delta keys.privateKey = none) :
    processDelta prim true (some keys) delta = delta
    ∧ streamFold prim true (some keys) (pre ++ delta :: post)
      = ((streamFold prim true (some keys) pre).1 ++ delta
          ++ (streamFold prim true (some keys) post).1,
         (streamFold prim true (some keys) pre).2
          ++ delta :: (streamFold prim true (some keys) post).2) := by
  have hpd : processDelta prim true (some keys) delta = delta := by
    show (match decryptResponse prim delta keys.privateKey with
      | some decrypted => decrypted
      | Option.none => delta) = delta
    rw [hfail]
  refine ⟨hpd, ?_⟩
  show (pre ++ delta :: post).foldl (streamStep prim true (some keys)) ("", [])
    = _
  rw [List.foldl_append, List.foldl_cons]
  rw [show (pre.foldl (streamStep prim true (some keys)) ("", []))
        = streamFold prim true (some keys) pre from rfl]
  rw [streamFold_acc]
  simp only [streamStep, hpd, String.append_assoc, List.append_assoc,
    List.singleton_append]

/-- C7 witness: a concrete undecryptable chunk between two others. -/
theorem decrypt_failure_fallback_witness :
    processDelta toyPrim true (some { publicKeyHex := "", privateKey := [1] }) "zz" = "zz"
    ∧ streamFold toyPrim true (some { publicKeyHex := "", privateKey := [1] })
        (["aa"] ++ "zz" :: ["bb"])
      = ((streamFold toyPrim true (some { publicKeyHex := "", privateKey := [1] }) ["aa"]).1
          ++ "zz"
          ++ (streamFold toyPrim true (some { publicKeyHex := "", privateKey := [1] }) ["bb"]).1,
         (streamFold toyPrim true (some { publicKeyHex := "", privateKey := [1] }) ["aa"]).2
          ++ "zz" :: (streamFold toyPrim true (some { publicKeyHex := "", privateKey := [1] }) ["bb"]).2) :=
  decrypt_failure_fallback toyPrim { publicKeyHex := "", privateKey := [1] }
    ["aa"] ["bb"] "zz" (by decide)

/-- C5 (amended): `streamChat` generates ONE fresh client keypair per
exchange and reuses it for every message of that exchange's payload: each
encrypted message's blob embeds the same per-exchange ephemeral public key
`normalizePubKey clientKeys.publicKeyHex` in its first 65 bytes. -/
theorem stream_single_ephemeral_key (prim : CryptoPrim)
    (messages : List ChatMessage) (mp : String) (ck : E2EEKeys)
    (nonces : List (List Nat))
    (hAesBytes : ∀ k n pt, (∀ b ∈ k, b < 256) → (∀ b ∈ n, b < 256) →
      (∀ b ∈ pt, b < 256) → ∀ b ∈ prim.aesGcmEncrypt k n pt, b < 256)
    (hHkdfBytes : ∀ ikm, ∀ b ∈ prim.hkdfSha256 ikm, b < 256)
    (hPubLen : (normalizePubKey ck.publicKeyHex).length = 65)
    (hNonces : ∀ n ∈ nonces, n.length = 12 ∧ ∀ b ∈ n, b < 256) :
    ∀ m ∈ encryptHistoryForStream prim messages mp ck nonces,
      (hexToBytes m.content).take 65 = normalizePubKey ck.publicKeyHex := by
  intro m hm
  obtain ⟨p, hp, hmp⟩ := List.mem_map.mp hm
  obtain ⟨_, hp2⟩ := List.of_mem_zip hp
  obtain ⟨hlen, hbytes⟩ := hNonces p.2 hp2
  have hb : ∀ b ∈ normalizePubKey ck.publicKeyHex ++ p.2
      ++ prim.aesGcmEncrypt
        (prim.hkdfSha256
          (((prim.getSharedSecret ck.privateKey (normalizePubKey mp)).drop 1).take 32))
        p.2 (utf8Encode p.1.content), b < 256 :=
    append_bytes_lt
      (append_bytes_lt (normalizePubKey_lt_256 _) hbytes)
      (hAesBytes _ _ _ (hHkdfBytes _) hbytes (utf8Encode_lt_256 _))
  obtain ⟨hdec, htake, -, -⟩ :=
    hex_blob_split (normalizePubKey ck.publicKeyHex) p.2 _ hb hPubLen hlen
  rw [← hmp]
  show (hexToBytes (encryptMessageWithClientKeys prim p.1.content mp ck p.2)).take 65
    = normalizePubKey ck.publicKeyHex
  show (hexToBytes (bytesToHex
      (normalizePubKey ck.publicKeyHex ++ p.2
        ++ prim.aesGcmEncrypt
          (prim.hkdfSha256
            (((prim.getSharedSecret ck.privateKey (normalizePubKey mp)).drop 1).take 32))
          p.2 (utf8Encode p.1.content)))).take 65
    = normalizePubKey ck.publicKeyHex
  rw [hdec]
  exact htake

/-- C5 counterexample: two distinct messages encrypted within the same
streamed exchange (the concrete two-message history `msgsW`, using the one
keypair `streamChat` generated for the exchange) embed the SAME ephemeral
public key in their blobs, not distinct fresh ones. -/
theorem stream_ephemeral_reuse_counterexample :
    streamOutW.length = 2
    ∧ (streamOutW.getD 0 defaultMsg).content ≠ (streamOutW.getD 1 defaultMsg).content
    ∧ (hexToBytes (streamOutW.getD 0 defaultMsg).content).take 65
      = (hexToBytes (streamOutW.getD 1 defaultMsg).content).take 65 := by
  refine ⟨by decide, by decide, by decide⟩

/-- C5 witness: both concrete encrypted messages embed the per-exchange
public key. -/
theorem stream_single_ephemeral_key_witness :
    (hexToBytes (streamOutW.getD 0 defaultMsg).content).take 65
      = normalizePubKey keysA.publicKeyHex
    ∧ (hexToBytes (streamOutW.getD 1 defaultMsg).content).take 65
      = normalizePubKey keysA.publicKeyHex :=
  ⟨stream_single_ephemeral_key toyPrim msgsW pubHexB keysA [nonceW, nonceW2]
      toyAes_bytes toyHkdf_bytes (by decide) (by decide)
      (streamOutW.getD 0 defaultMsg) (by decide),
    stream_single_ephemeral_key toyPrim msgsW pubHexB keysA [nonceW, nonceW2]
      toyAes_bytes toyHkdf_bytes (by decide) (by decide)
      (streamOutW.getD 1 defaultMsg) (by decide)⟩

/-- C8 (amended): for a conversation created with a NONZERO retention of
`h` hours, `expiresAt = createdAt + h*3600000`; with no retention — or with
`retentionHours = 0`, which the JS truthiness test treats as unset —
`expiresAt` is `null`.  The sweep deletes a conversation exactly when its
(nonzero) `expiresAt` is `≤ now`; in particular `retentionHours = 1`
leaves the conversation present at `t0+3599999` and purges it at
`t0+3600001`. -/
theorem retention_expiry (id : String) (t0 h now : Nat)
    (convos : List Conversation) :
    (h ≠ 0 → (createEmptyConvo id t0 (some h)).expiresAt
      = some (t0 + h * 3600000))
    ∧ (createEmptyConvo id t0 Option.none).expiresAt = Option.none
    ∧ (createEmptyConvo id t0 (some 0)).expiresAt = Option.none
    ∧ (h ≠ 0 →
        (isExpired (createEmptyConvo id t0 (some h)) now = true
          ↔ t0 + h * 3600000 ≤ now))
    ∧ (∀ c ∈ convos, (c ∈ purgeExpired convos now ↔ isExpired c now = false))
    ∧ isExpired (createEmptyConvo id t0 (some 1)) (t0 + 3599999) = false
    ∧ isExpired (createEmptyConvo id t0 (some 1)) (t0 + 3600001) = true := by
  refine ⟨?_, rfl, rfl, ?_, ?_, ?_, ?_⟩
  · intro hne
    show (if h = 0 then none else some (t0 + h * 60 * 60 * 1000))
      = some (t0 + h * 3600000)
    rw [if_neg hne]
    congr 1
    ring
  · intro hne
    have he : (createEmptyConvo id t0 (some h)).expiresAt
        = some (t0 + h * 3600000) := by
      show (if h = 0 then none else some (t0 + h * 60 * 60 * 1000))
        = some (t0 + h * 3600000)
      rw [if_neg hne]
      congr 1
      ring
    unfold isExpired
    rw [he]
    have hz : (t0 + h * 3600000 == 0) = false := by
      simp only [beq_eq_false_iff_ne, ne_eq]
      omega
    show (!(t0 + h * 3600000 == 0) && decide (t0 + h * 3600000 ≤ now)) = true
      ↔ t0 + h * 3600000 ≤ now
    rw [hz]
    simp
  · intro c hc
    rw [purgeExpired, List.mem_filter]
    simp [hc, Bool.not_eq_true']
  · show (!(t0 + 1 * 60 * 60 * 1000 == 0)
      && decide (t0 + 1 * 60 * 60 * 1000 ≤ t0 + 3599999)) = false
    have : ¬(t0 + 1 * 60 * 60 * 1000 ≤ t0 + 3599999) := by omega
    simp [this]
  · show (!(t0 + 1 * 60 * 60 * 1000 == 0)
      && decide (t0 + 1 * 60 * 60 * 1000 ≤ t0 + 3600001)) = true
    have h1 : t0 + 1 * 60 * 60 * 1000 ≠ 0 := by omega
    have h2 : t0 + 1 * 60 * 60 * 1000 ≤ t0 + 3600001 := by omega
    simp [h1, h2]

/-- C8 counterexample: `retentionHours = 0` is a set retention value, yet
the conversation gets `expiresAt = null`, not
`createdAt + 0 * 3600000 = createdAt`. -/
theorem retention_zero_hours_counterexample :
    (createEmptyConvo "c" 5 (some 0)).retentionHours = some 0
    ∧ (createEmptyConvo "c" 5 (some 0)).expiresAt ≠ some (5 + 0 * 3600000)
    ∧ (createEmptyConvo "c" 5 (some 0)).expiresAt = Option.none := by
  refine ⟨rfl, by decide, rfl⟩

/-- C8 witness: concrete one-hour retention boundary. -/
theorem retention_expiry_witness :
    (createEmptyConvo "c" 10 (some 1)).expiresAt = some (10 + 1 * 3600000)
    ∧ isExpired (createEmptyConvo "c" 10 (some 1)) (10 + 3599999) = false
    ∧ isExpired (createEmptyConvo "c" 10 (some 1)) (10 + 3600001) = true :=
  ⟨(retention_expiry "c" 10 1 20 []).1 (by decide),
    (retention_expiry "c" 10 1 20 []).2.2.2.2.2.1,
    (retention_expiry "c" 10 1 20 []).2.2.2.2.2.2⟩
